import Mathlib

/-!
Verification of the core of `usnparser` (src/usnparser/usn.py), a parser for
the NTFS USN change journal.  The Python source is shallowly embedded below:

* byte streams are `List ℕ` (each element a byte value `< 256`) together with
  an explicit cursor position, mirroring the file object's `read`/`seek`/`tell`;
* Python integers are `ℕ`/`ℤ`; CPython `float` results are modelled exactly by
  `roundDouble`, which rounds a rational to the nearest IEEE-754 binoid64
  value (round half to even) in the normal range — every value arising here is
  far inside that range;
* functions that can raise return `Except PyExc _`; an exception caught by the
  source's `try/except` is resolved inside the definition, an uncaught one is
  surfaced as `.error`;
* `sys.exit()` and a non-terminating loop are distinct result variants of the
  scanner models (`ScanResult.sysExit`, `ScanResult.loopsForever`, and `none`
  for `findFirstRecord`), since those are the observable behaviours of the
  traversal loops.
-/

/-! ## Flag tables (usn.py lines 35-85)

The three module-level `collections.OrderedDict` tables.  All keys are
distinct, so an insertion-ordered association list models them exactly. -/

/-- The `reasons` OrderedDict of usn.py lines 35-58, in declaration order
(note `INTEGRITY_CHANGE` (0x800000) is declared before `TRANSACTED_CHANGE`
(0x400000), and `CLOSE` sits at the sign bit 0x80000000). -/
def reasons : List (ℕ × String) :=
  [(0x1, "DATA_OVERWRITE"),
   (0x2, "DATA_EXTEND"),
   (0x4, "DATA_TRUNCATION"),
   (0x10, "NAMED_DATA_OVERWRITE"),
   (0x20, "NAMED_DATA_EXTEND"),
   (0x40, "NAMED_DATA_TRUNCATION"),
   (0x100, "FILE_CREATE"),
   (0x200, "FILE_DELETE"),
   (0x400, "EA_CHANGE"),
   (0x800, "SECURITY_CHANGE"),
   (0x1000, "RENAME_OLD_NAME"),
   (0x2000, "RENAME_NEW_NAME"),
   (0x4000, "INDEXABLE_CHANGE"),
   (0x8000, "BASIC_INFO_CHANGE"),
   (0x10000, "HARD_LINK_CHANGE"),
   (0x20000, "COMPRESSION_CHANGE"),
   (0x40000, "ENCRYPTION_CHANGE"),
   (0x80000, "OBJECT_ID_CHANGE"),
   (0x100000, "REPARSE_POINT_CHANGE"),
   (0x200000, "STREAM_CHANGE"),
   (0x800000, "INTEGRITY_CHANGE"),
   (0x00400000, "TRANSACTED_CHANGE"),
   (0x80000000, "CLOSE")]

/-- The `attributes` OrderedDict of usn.py lines 61-78. -/
def attributes : List (ℕ × String) :=
  [(0x1, "READONLY"),
   (0x2, "HIDDEN"),
   (0x4, "SYSTEM"),
   (0x10, "DIRECTORY"),
   (0x20, "ARCHIVE"),
   (0x40, "DEVICE"),
   (0x80, "NORMAL"),
   (0x100, "TEMPORARY"),
   (0x200, "SPARSE_FILE"),
   (0x400, "REPARSE_POINT"),
   (0x800, "COMPRESSED"),
   (0x1000, "OFFLINE"),
   (0x2000, "NOT_CONTENT_INDEXED"),
   (0x4000, "ENCRYPTED"),
   (0x8000, "INTEGRITY_STREAM"),
   (0x10000, "VIRTUAL"),
   (0x20000, "NO_SCRUB_DATA")]

/-- The `sourceInfo` OrderedDict of usn.py lines 81-85. -/
def sourceInfo : List (ℕ × String) :=
  [(0x1, "DATA_MANAGEMENT"),
   (0x2, "AUXILIARY_DATA"),
   (0x4, "REPLICATION_MANAGEMENT"),
   (0x8, "CLIENT_REPLICATION_MANAGEMENT")]

/-- The list comprehension inside `convertAttributes` (usn.py line 221):
`[attributeType[i] for i in attributeType if i & data]` — iterate the table in
declaration order and keep the names whose key has a non-zero bitwise AND with
`data`. -/
def expandFlags (attributeType : List (ℕ × String)) (data : ℕ) : List String :=
  (attributeType.filter fun p => p.1 &&& data != 0).map Prod.snd

/-- `convertAttributes` (usn.py lines 217-222): the kept names joined with a
single space. -/
def convertAttributes (attributeType : List (ℕ × String)) (data : ℕ) : String :=
  String.intercalate " " (expandFlags attributeType data)

/-! ## File-reference decomposition (usn.py lines 188-202) -/

/-- Byte `i` of the little-endian encoding of `v` (`struct.pack("<Q", v)`). -/
def byteAt (v i : ℕ) : ℕ := v / 2 ^ (8 * i) % 256

/-- `struct.unpack_from("<h", ...)`: reinterpret a 16-bit value as signed. -/
def toSigned16 (n : ℕ) : ℤ := if n < 32768 then (n : ℤ) else (n : ℤ) - 65536

/-- The value of `int(byteString, 16)` where `byteString` is built by the loop
`for i in b[::-1]: byteString += format(i, 'x')` (usn.py lines 196-200).
`format(i, 'x')` renders a byte as one hex digit when `i < 16` and two
otherwise (no zero padding), so each byte shifts the accumulator by its own
rendered width. -/
def hexConcatVal (bs : List ℕ) : ℕ :=
  bs.foldl (fun acc b => acc * (if b < 16 then 16 else 256) + b) 0

/-- `convertFileReference` (usn.py lines 188-202): `seq` is the signed 16-bit
reinterpretation of bytes 6-7; `entry` is `int` of the unpadded hex digits of
bytes 5,4,3,2,1,0 concatenated in that order. -/
def convertFileReference (v : ℕ) : ℤ × ℕ :=
  (toSigned16 (byteAt v 6 + 256 * byteAt v 7),
   hexConcatVal [byteAt v 5, byteAt v 4, byteAt v 3, byteAt v 2, byteAt v 1, byteAt v 0])

/-! ## Claim C1 -/

/-- C1: the claim says `convertFileReference v` returns
`entryNumber = v &&& 0xFFFFFFFFFFFF`.  The code drops leading zeros of each
byte's hex rendering (`format(i, 'x')`, not `'02x'`), so at
`v = 258 = 0x0102` it concatenates the digits `"...0...1" ++ "2"` and returns
`entryNumber = 0x12 = 18`, while the 48-bit truncation of `v` (and hence the
round-trip value) is `258`.  The sequence-number half of the claim does hold
(`seq = 0` here). -/
theorem convertFileReference_drops_hex_zeros :
    convertFileReference 258 = (0, 18) ∧ 258 % 2 ^ 48 = 258 ∧ (18 : ℕ) ≠ 258 := by
  decide

/-! ## Claim C9 -/

/-- C9 counterexample: the claim (and spec §4.3) says the change-reason table
has 22 entries; the source declares 23 distinct keys (lines 36-58). -/
theorem reasons_has_23_entries : reasons.length = 23 ∧ reasons.length ≠ 22 := by
  decide

/-- C9 (amended): the change-reason table has 23 entries spanning bit values
0x1 through 0x80000000 with the combined `CLOSE` flag at the sign bit, the
file-attribute table has 17 entries, and the source-info table has 4
entries. -/
theorem flag_table_shapes :
    reasons.length = 23 ∧ attributes.length = 17 ∧ sourceInfo.length = 4 ∧
    (1, "DATA_OVERWRITE") ∈ reasons ∧ (2147483648, "CLOSE") ∈ reasons ∧
    (∀ p ∈ reasons, 1 ≤ p.1 ∧ p.1 ≤ 2147483648) ∧
    (reasons.map Prod.fst).Nodup ∧ (attributes.map Prod.fst).Nodup ∧
    (sourceInfo.map Prod.fst).Nodup := by
  decide

/-! ## Claim C6 -/

/-- C6: for each of the three tables and every mask, the expansion computed by
`convertAttributes` contains a name exactly when some table entry carries it
with a bit set in the mask, it lists names in table-declaration order (it is a
sublist of the table's name column), and it has no duplicates. -/
theorem expandFlags_exact (T : List (ℕ × String))
    (hT : T = reasons ∨ T = attributes ∨ T = sourceInfo) (m : ℕ) (s : String) :
    (s ∈ expandFlags T m ↔ ∃ b, (b, s) ∈ T ∧ b &&& m ≠ 0) ∧
    (expandFlags T m).Sublist (T.map Prod.snd) ∧
    (expandFlags T m).Nodup := by
  refine ⟨?_, (List.filter_sublist _).map _, ?_⟩
  · simp only [expandFlags, List.mem_map, List.mem_filter]
    constructor
    · rintro ⟨⟨b, s'⟩, ⟨hmem, hand⟩, rfl⟩
      exact ⟨b, hmem, by simpa using hand⟩
    · rintro ⟨b, hmem, hand⟩
      exact ⟨(b, s), ⟨hmem, by simpa using hand⟩, rfl⟩
  · have hnd : (T.map Prod.snd).Nodup := by
      rcases hT with rfl | rfl | rfl <;> decide
    exact hnd.sublist ((List.filter_sublist _).map _)

/-- Witness for C6 at the `reasons` table, mask `0x80000001`, name `CLOSE`. -/
theorem expandFlags_exact_witness :
    (reasons = reasons ∨ reasons = attributes ∨ reasons = sourceInfo) ∧
    (("CLOSE" ∈ expandFlags reasons 2147483649 ↔
        ∃ b, (b, "CLOSE") ∈ reasons ∧ b &&& 2147483649 ≠ 0) ∧
      (expandFlags reasons 2147483649).Sublist (reasons.map Prod.snd) ∧
      (expandFlags reasons 2147483649).Nodup) :=
  ⟨Or.inl rfl, expandFlags_exact reasons (Or.inl rfl) 2147483649 "CLOSE"⟩

/-! ## Journal scanner (usn.py lines 141-168)

A stream is a byte list plus a cursor.  `infile.read(n)` returns
`(data.drop pos).take n` and advances the cursor by the length returned. -/

/-- `struct.unpack_from('<I', ...)` on a little-endian byte list (also the
value of any little-endian byte run). -/
def leVal : List ℕ → ℕ
  | [] => 0
  | b :: rest => b + 256 * leVal rest

/-- Observable outcomes of one `findNextRecord` call: return an offset to the
caller, terminate the whole process via `sys.exit()` (usn.py line 168), or
never return (the `except` path loops forever when `tell()` stays below
`journalSize`, since the stream state no longer changes at end of file). -/
inductive ScanResult where
  | next (offset : ℕ)
  | sysExit
  | loopsForever
deriving DecidableEq

/-- `findNextRecord` (usn.py lines 153-168), started with the cursor at `pos`:
read 4 bytes; on a full read parse a little-endian u32, recurse past zero
lengths, and on a non-zero length seek back 4 and return `tell() +
recordLength`; on a short read (`struct.error`) the cursor has advanced to end
of data, and the process exits iff `tell() >= journalSize`. -/
def findNextRecord (data : List ℕ) (journalSize : ℕ) (pos : ℕ) : ScanResult :=
  if h : ((data.drop pos).take 4).length = 4 then
    if leVal ((data.drop pos).take 4) = 0 then
      findNextRecord data journalSize (pos + 4)
    else
      ScanResult.next (pos + leVal ((data.drop pos).take 4))
  else
    if journalSize ≤ pos + ((data.drop pos).take 4).length then ScanResult.sysExit
    else ScanResult.loopsForever
termination_by data.length - pos
decreasing_by
  simp only [List.length_take, List.length_drop] at h
  omega

/-- `findFirstRecord` (usn.py lines 141-150), started with the cursor at
`pos`: read 64 KiB chunks, strip leading zero bytes, and return `tell() -
len(stripped)` for the first chunk with a surviving byte.  `none` marks the
infinite loop entered when the rest of the stream is all zero bytes: `read`
then returns the empty bytes object forever and the loop never exits. -/
def findFirstRecord (data : List ℕ) (pos : ℕ) : Option ℕ :=
  if h : data.length ≤ pos then none
  else if ((data.drop pos).take 65536).dropWhile (· == 0) = [] then
    findFirstRecord data (pos + ((data.drop pos).take 65536).length)
  else
    some (pos + ((data.drop pos).take 65536).length -
      (((data.drop pos).take 65536).dropWhile (· == 0)).length)
termination_by data.length - pos
decreasing_by
  simp only [List.length_take, List.length_drop]
  omega

/-! ## UTF-16 decoding and `filenameHandler` (usn.py lines 205-214)

Decoded text is represented as the list of Unicode code points. -/

/-- Uncaught Python exception kinds arising in the modelled fragment. -/
inductive PyExc where
  | valueError
  | overflowError
  | osError
  | unicodeDecodeError
deriving DecidableEq

/-- Pair bytes into little-endian 16-bit code units; `none` on an odd tail
byte (`utf-16` "truncated data"). -/
def pairLE : List ℕ → Option (List ℕ)
  | [] => some []
  | [_] => none
  | a :: b :: rest => (pairLE rest).map fun us => (a + 256 * b) :: us

/-- Pair bytes into big-endian 16-bit code units. -/
def pairBE : List ℕ → Option (List ℕ)
  | [] => some []
  | [_] => none
  | a :: b :: rest => (pairBE rest).map fun us => (256 * a + b) :: us

/-- Strict UTF-16 surrogate combination: a high surrogate must be followed by
a low surrogate; a lone surrogate is a decode error (`none`). -/
def combineUnits : List ℕ → Option (List ℕ)
  | [] => some []
  | [u] => if u < 0xD800 ∨ 0xE000 ≤ u then some [u] else none
  | u :: v :: rest =>
    if u < 0xD800 ∨ 0xE000 ≤ u then (combineUnits (v :: rest)).map (u :: ·)
    else if u < 0xDC00 ∧ 0xDC00 ≤ v ∧ v < 0xE000 then
      (combineUnits rest).map fun cs => (0x10000 + (u - 0xD800) * 1024 + (v - 0xDC00)) :: cs
    else none

/-- Strict UTF-16 little-endian decoding of a byte list. -/
def utf16LEDecode (bs : List ℕ) : Option (List ℕ) := (pairLE bs).bind combineUnits

/-- Strict UTF-16 big-endian decoding of a byte list. -/
def utf16BEDecode (bs : List ℕ) : Option (List ℕ) := (pairBE bs).bind combineUnits

/-- Whether a byte list starts with a UTF-16 byte-order mark. -/
def bomStart : List ℕ → Bool
  | 255 :: 254 :: _ => true
  | 254 :: 255 :: _ => true
  | _ => false

/-- CPython's `bytes.decode('utf16')`: a leading BOM is stripped and selects
the byte order; without a BOM the bytes are decoded little-endian (native
order). -/
def pyDecodeUtf16 (bs : List ℕ) : Option (List ℕ) :=
  match bs with
  | 255 :: 254 :: rest => utf16LEDecode rest
  | 254 :: 255 :: rest => utf16BEDecode rest
  | _ => utf16LEDecode bs

/-- `filenameHandler` (usn.py lines 205-214) with the cursor at `pos` and
`recordDict['filenameLength'] = L`: `infile.read(L)` returns the available
bytes; a short read makes `struct.unpack_from` raise `struct.error`, which is
caught and turned into the empty filename; a full read is decoded with the
`utf16` codec, whose `UnicodeDecodeError` is NOT caught by the source. -/
def filenameHandler (data : List ℕ) (pos L : ℕ) : Except PyExc (List ℕ) :=
  if ((data.drop pos).take L).length < L then Except.ok []
  else
    match pyDecodeUtf16 ((data.drop pos).take L) with
    | some cps => Except.ok cps
    | none => Except.error PyExc.unicodeDecodeError

/-! ## Scanner lemmas -/

/-- A little-endian run of zero bytes has value zero. -/
lemma leVal_eq_zero (l : List ℕ) (h : ∀ x ∈ l, x = 0) : leVal l = 0 := by
  induction l with
  | nil => rfl
  | cons b rest ih =>
    have hb := h b (by simp)
    have := ih fun x hx => h x (by simp [hx])
    simp [leVal, hb, this]

/-- On an all-zero remainder that covers the declared journal size,
`findNextRecord` runs off the end of the data and executes `sys.exit()`. -/
lemma scan_allZero_sysExit :
    ∀ (n : ℕ) (data : List ℕ) (js pos : ℕ), data.length - pos ≤ n →
      pos ≤ data.length → js ≤ data.length → (∀ x ∈ data.drop pos, x = 0) →
      findNextRecord data js pos = ScanResult.sysExit := by
  intro n
  induction n with
  | zero =>
    intro data js pos hn hpos hjs _hz
    have hpe : pos = data.length := by omega
    unfold findNextRecord
    rw [dif_neg (by simp [List.length_take, List.length_drop]; omega)]
    rw [if_pos (by simp [List.length_take, List.length_drop]; omega)]
  | succ n ih =>
    intro data js pos hn hpos hjs hz
    unfold findNextRecord
    by_cases h4 : ((data.drop pos).take 4).length = 4
    · rw [dif_pos h4]
      have hlen4 : 4 ≤ data.length - pos := by
        simp only [List.length_take, List.length_drop] at h4
        omega
      have hz4 : leVal ((data.drop pos).take 4) = 0 :=
        leVal_eq_zero _ fun x hx => hz x ((List.take_sublist _ _).subset hx)
      rw [if_pos hz4]
      refine ih data js (pos + 4) (by omega) (by omega) hjs fun x hx => hz x ?_
      have hdd : data.drop (pos + 4) = (data.drop pos).drop 4 := by
        rw [List.drop_drop, Nat.add_comm]
      rw [hdd] at hx
      exact (List.drop_sublist _ _).subset hx
    · rw [dif_neg h4]
      rw [if_pos (by simp only [List.length_take, List.length_drop] at h4 ⊢; omega)]

/-! ## Claim C2 -/

/-- C2 counterexample: on an empty journal (`journalSize = 0`, an exhausted
stream) `findNextRecord` does not hand a distinct end-of-journal value back to
its caller — it executes `sys.exit()` (usn.py line 168), terminating the
process.  `ScanResult.sysExit` is exactly that process termination, and it is
the only end-of-journal outcome the function has. -/
theorem findNextRecord_exits_process :
    findNextRecord [] 0 0 = ScanResult.sysExit :=
  scan_allZero_sysExit 0 [] 0 0 (by simp) (by simp) (by simp) (by simp)

/-- C2 (amended): when the scanner finds no further non-zero record length
before the stream position reaches `journalSize`, it terminates the process
via `sys.exit()` — end-of-journal is signalled by process termination, not by
a return value. -/
theorem findNextRecord_end_of_journal (data : List ℕ) (js pos : ℕ)
    (hpos : pos ≤ data.length) (hjs : js ≤ data.length)
    (hz : ∀ x ∈ data.drop pos, x = 0) :
    findNextRecord data js pos = ScanResult.sysExit :=
  scan_allZero_sysExit (data.length - pos) data js pos le_rfl hpos hjs hz

/-- Witness for the amended C2 on a four-byte all-zero journal. -/
theorem findNextRecord_end_of_journal_witness :
    (0 ≤ ([0, 0, 0, 0] : List ℕ).length) ∧ (4 ≤ ([0, 0, 0, 0] : List ℕ).length) ∧
    (∀ x ∈ ([0, 0, 0, 0] : List ℕ).drop 0, x = 0) ∧
    findNextRecord [0, 0, 0, 0] 4 0 = ScanResult.sysExit :=
  ⟨by decide, by decide, by decide,
   findNextRecord_end_of_journal [0, 0, 0, 0] 4 0 (by decide) (by decide) (by decide)⟩

/-! ## Claim C8 -/

/-- C8: a record declaring more filename bytes than the stream still holds
decodes with the empty filename (the `struct.error` of the short
`unpack_from` is caught, nothing is raised), and the traversal's next scan
from the exhausted stream ends with the end-of-journal `sys.exit()`. -/
theorem truncated_filename_empty_then_end (data : List ℕ) (pos L js : ℕ)
    (hshort : (data.drop pos).length < L) (hjs : js ≤ data.length) :
    filenameHandler data pos L = Except.ok [] ∧
    findNextRecord data js data.length = ScanResult.sysExit := by
  constructor
  · unfold filenameHandler
    rw [if_pos (by simp only [List.length_take, List.length_drop] at hshort ⊢; omega)]
  · exact findNextRecord_end_of_journal data js data.length le_rfl hjs
      (by simp [List.drop_length])

/-- Witness for C8: `filenameLength = 20` with only 6 bytes available. -/
theorem truncated_filename_empty_then_end_witness :
    ((([65, 0, 66, 0, 67, 0] : List ℕ).drop 0).length < 20) ∧
    (6 ≤ ([65, 0, 66, 0, 67, 0] : List ℕ).length) ∧
    (filenameHandler [65, 0, 66, 0, 67, 0] 0 20 = Except.ok [] ∧
      findNextRecord [65, 0, 66, 0, 67, 0] 6 6 = ScanResult.sysExit) :=
  ⟨by decide, by decide,
   truncated_filename_empty_then_end [65, 0, 66, 0, 67, 0] 0 20 6 (by decide) (by decide)⟩

/-- One chunk suffices: a zero run shorter than the 64 KiB chunk followed by a
non-zero byte is located inside the first chunk read. -/
lemma findFirstRecord_small (data : List ℕ) (pos N b : ℕ) (rest : List ℕ)
    (hb : b ≠ 0) (hN : N < 65536)
    (hdrop : data.drop pos = List.replicate N 0 ++ b :: rest) :
    findFirstRecord data pos = some (pos + N) := by
  have hlen : (data.drop pos).length = N + 1 + rest.length := by
    rw [hdrop]; simp [List.length_replicate]; omega
  have hpos : ¬ data.length ≤ pos := by
    rw [List.length_drop] at hlen; omega
  unfold findFirstRecord
  rw [dif_neg hpos, hdrop]
  have htake : (List.replicate N 0 ++ b :: rest).take 65536
      = List.replicate N 0 ++ b :: rest.take (65535 - N) := by
    rw [List.take_append_eq_append_take]
    congr 1
    · rw [List.take_replicate]; congr 1; omega
    · rw [List.length_replicate,
        show 65536 - N = (65535 - N) + 1 by omega, List.take_succ_cons]
  rw [htake]
  have hdw : (List.replicate N 0 ++ b :: rest.take (65535 - N)).dropWhile (· == 0)
      = b :: rest.take (65535 - N) := by
    rw [List.dropWhile_append_of_pos
        (by intro a ha; have := List.eq_of_mem_replicate ha; simp [this])]
    rw [List.dropWhile_cons_of_neg (by simp [hb])]
  rw [hdw]
  rw [if_neg (by simp)]
  simp only [Option.some.injEq, List.length_append, List.length_replicate,
    List.length_cons]
  omega

/-- Fuel-indexed form of padding-skip correctness: all-zero chunks are skipped
until the chunk containing the first non-zero byte. -/
lemma findFirstRecord_padding :
    ∀ (n N : ℕ), N ≤ n → ∀ (data : List ℕ) (pos b : ℕ) (rest : List ℕ),
      b ≠ 0 → data.drop pos = List.replicate N 0 ++ b :: rest →
      findFirstRecord data pos = some (pos + N) := by
  intro n
  induction n with
  | zero =>
    intro N hN data pos b rest hb hdrop
    exact findFirstRecord_small data pos N b rest hb (by omega) hdrop
  | succ n ih =>
    intro N hN data pos b rest hb hdrop
    by_cases hsmall : N < 65536
    · exact findFirstRecord_small data pos N b rest hb hsmall hdrop
    · have hlen : (data.drop pos).length = N + 1 + rest.length := by
        rw [hdrop]; simp [List.length_replicate]; omega
      have hpos : ¬ data.length ≤ pos := by
        rw [List.length_drop] at hlen; omega
      unfold findFirstRecord
      rw [dif_neg hpos, hdrop]
      have htake : (List.replicate N 0 ++ b :: rest).take 65536
          = List.replicate 65536 0 := by
        rw [List.take_append_of_le_length (by rw [List.length_replicate]; omega)]
        rw [List.take_replicate]; congr 1; omega
      rw [htake]
      have hdw : (List.replicate 65536 (0 : ℕ)).dropWhile (· == 0) = [] :=
        List.dropWhile_eq_nil_iff.mpr fun x hx => by
          have := List.eq_of_mem_replicate hx; simp [this]
      rw [if_pos hdw, List.length_replicate]
      have hdrop2 : data.drop (pos + 65536)
          = List.replicate (N - 65536) 0 ++ b :: rest := by
        rw [← List.drop_drop, hdrop, List.drop_append_eq_append_drop,
          List.drop_replicate, List.length_replicate,
          show 65536 - N = 0 by omega, List.drop_zero]
      rw [ih (N - 65536) (by omega) data (pos + 65536) b rest hb hdrop2]
      simp only [Option.some.injEq]
      omega

/-! ## Claim C7 -/

/-- C7: on a stream of `N` zero bytes (any `N`, also beyond one 64 KiB chunk)
followed by a non-zero byte, `findFirstRecord` from offset 0 returns the
absolute offset `N` of that byte; all-zero chunks make the scan continue into
the next chunk instead of stopping. -/
theorem findFirstRecord_skips_padding (N b : ℕ) (rest : List ℕ) (hb : b ≠ 0) :
    findFirstRecord (List.replicate N 0 ++ b :: rest) 0 = some N := by
  have h := findFirstRecord_padding N N le_rfl
    (List.replicate N 0 ++ b :: rest) 0 b rest hb (by simp)
  simpa using h

/-- Witness for C7 with two zero bytes of padding before a length byte 60. -/
theorem findFirstRecord_skips_padding_witness :
    (60 ≠ 0) ∧ findFirstRecord (List.replicate 2 0 ++ 60 :: []) 0 = some 2 :=
  ⟨by decide, findFirstRecord_skips_padding 2 60 [] (by decide)⟩

/-- Fuel-indexed form: an all-zero remainder makes `findFirstRecord` loop
forever (every chunk strips to nothing, and at end of data `read` returns
empty chunks without any end-of-input check). -/
lemma findFirstRecord_allZero :
    ∀ (n : ℕ) (data : List ℕ) (pos : ℕ), data.length - pos ≤ n →
      (∀ x ∈ data.drop pos, x = 0) → findFirstRecord data pos = none := by
  intro n
  induction n with
  | zero =>
    intro data pos hn _hz
    unfold findFirstRecord
    rw [dif_pos (by omega)]
  | succ n ih =>
    intro data pos hn hz
    by_cases hend : data.length ≤ pos
    · unfold findFirstRecord
      rw [dif_pos hend]
    · unfold findFirstRecord
      rw [dif_neg hend]
      have hdw : ((data.drop pos).take 65536).dropWhile (· == 0) = [] :=
        List.dropWhile_eq_nil_iff.mpr fun x hx => by
          have := hz x ((List.take_sublist _ _).subset hx); simp [this]
      rw [if_pos hdw]
      refine ih data (pos + ((data.drop pos).take 65536).length) ?_ ?_
      · simp only [List.length_take, List.length_drop]
        omega
      · intro x hx
        refine hz x ?_
        rw [← List.drop_drop] at hx
        exact (List.drop_sublist _ _).subset hx

/-! ## Claim C10 -/

/-- C10: `findFirstRecord` terminates only when a non-zero byte exists at or
after the cursor; on an all-zero (or empty) remainder it loops forever
(`none`), because reaching end of input is never checked — `read` just keeps
returning chunks that strip to nothing. -/
theorem findFirstRecord_allZero_diverges (data : List ℕ) (pos : ℕ)
    (hz : ∀ x ∈ data.drop pos, x = 0) : findFirstRecord data pos = none :=
  findFirstRecord_allZero (data.length - pos) data pos le_rfl hz

/-- Witness for C10 on a three-byte all-zero stream. -/
theorem findFirstRecord_allZero_diverges_witness :
    (∀ x ∈ (([0, 0, 0] : List ℕ).drop 0), x = 0) ∧
    findFirstRecord [0, 0, 0] 0 = none :=
  ⟨by decide, findFirstRecord_allZero_diverges [0, 0, 0] 0 (by decide)⟩

/-- Without a leading byte-order mark, the `utf16` codec decodes
little-endian. -/
lemma pyDecodeUtf16_noBom (bs : List ℕ) (h : bomStart bs = false) :
    pyDecodeUtf16 bs = utf16LEDecode bs := by
  unfold pyDecodeUtf16
  split
  · simp [bomStart] at h
  · simp [bomStart] at h
  · rfl

/-! ## Claim C5 -/

/-- C5 counterexample: the claim says a fully available filename decodes as
UTF-16LE of exactly the declared bytes.  The source uses the BOM-sensitive
`utf16` codec: the filename bytes `FF FE 61 00` decode to `"a"` (BOM
stripped), while their UTF-16LE decoding keeps the code point 0xFEFF
(result `[65279, 97]`). -/
theorem filenameHandler_bom_mismatch :
    filenameHandler [255, 254, 97, 0] 0 4 = Except.ok [97] ∧
    utf16LEDecode [255, 254, 97, 0] = some [65279, 97] ∧
    ([97] : List ℕ) ≠ [65279, 97] :=
  ⟨rfl, rfl, by decide⟩

/-- C5 (amended): with all `filenameLength` bytes available, the decoded
filename is the `utf16`-codec decoding of exactly those bytes — a leading BOM
is stripped and selects the byte order, and otherwise (no BOM, as here) the
result is exactly the UTF-16 little-endian decoding of those bytes. -/
theorem filenameHandler_utf16le (data : List ℕ) (pos L : ℕ) (cps : List ℕ)
    (hfull : L ≤ (data.drop pos).length)
    (hbom : bomStart ((data.drop pos).take L) = false)
    (hdec : utf16LEDecode ((data.drop pos).take L) = some cps) :
    filenameHandler data pos L = Except.ok cps := by
  unfold filenameHandler
  rw [if_neg (by simp only [List.length_take]; omega)]
  rw [pyDecodeUtf16_noBom _ hbom, hdec]

/-- Witness for the amended C5 on the four bytes of `"ab"` in UTF-16LE. -/
theorem filenameHandler_utf16le_witness :
    (4 ≤ (([97, 0, 98, 0] : List ℕ).drop 0).length) ∧
    (bomStart ((([97, 0, 98, 0] : List ℕ).drop 0).take 4) = false) ∧
    (utf16LEDecode ((([97, 0, 98, 0] : List ℕ).drop 0).take 4) = some [97, 98]) ∧
    filenameHandler [97, 0, 98, 0] 0 4 = Except.ok [97, 98] :=
  ⟨by decide, by decide, by decide,
   filenameHandler_utf16le [97, 0, 98, 0] 0 4 [97, 98] (by decide) (by decide) (by decide)⟩

/-! ## IEEE-754 double model

CPython's `int / int` true division, `float(int)`, float multiplication and
float subtraction all produce the correctly rounded (round half to even)
binary64 value of the exact rational result.  `roundDouble` is that rounding
for non-zero values in the normal range; every float arising in this program
is far inside that range, so no overflow, underflow or subnormal case is
reachable. -/

/-- Round a rational to the nearest integer, ties to even. -/
def rne (x : ℚ) : ℤ :=
  if x - ⌊x⌋ < 1 / 2 then ⌊x⌋
  else if 1 / 2 < x - ⌊x⌋ then ⌊x⌋ + 1
  else if 2 ∣ ⌊x⌋ then ⌊x⌋ else ⌊x⌋ + 1

/-- Correctly rounded binary64 value of a rational: scale into `[2^52, 2^53)`,
round the mantissa to nearest (ties to even), and scale back. -/
def roundDouble (q : ℚ) : ℚ :=
  if q = 0 then 0
  else (rne (q / 2 ^ (Int.log 2 |q| - 52)) : ℚ) * 2 ^ (Int.log 2 |q| - 52)

/-- `int()` applied to a float: truncation toward zero. -/
def truncInt (q : ℚ) : ℤ := if q < 0 then ⌈q⌉ else ⌊q⌋

/-- `filetimeToEpoch` (usn.py lines 181-185):
`int(filetime / 10000 - 11644473600000)` — a float true division, a float
subtraction (the constant is exactly representable), then `int()`
truncation. -/
def filetimeToEpoch (t : ℕ) : ℤ :=
  truncInt (roundDouble (roundDouble ((t : ℚ) / 10000) - 11644473600000))

/-- Rounding to nearest moves a value by at most 1/2. -/
lemma rne_dist (x : ℚ) : |(rne x : ℚ) - x| ≤ 1 / 2 := by
  have h0 : (⌊x⌋ : ℚ) ≤ x := Int.floor_le x
  have h1 : x < ⌊x⌋ + 1 := Int.lt_floor_add_one x
  unfold rne
  split_ifs with ha hb hc
  · rw [abs_sub_comm, abs_of_nonneg (by linarith)]
    linarith
  all_goals push_cast
  · rw [abs_of_nonneg (by linarith)]
    linarith
  · rw [abs_sub_comm, abs_of_nonneg (by linarith)]
    linarith
  · rw [abs_of_nonneg (by linarith)]
    linarith

/-- The double rounding error is below the value itself (coarse bound: the
relative error is in fact at most `2 ^ (-53)`). -/
lemma roundDouble_dist (q : ℚ) : |roundDouble q - q| ≤ |q| := by
  by_cases hq : q = 0
  · simp [roundDouble, hq]
  · unfold roundDouble
    rw [if_neg hq]
    have habs : (0 : ℚ) < |q| := abs_pos.mpr hq
    have hzp : (0 : ℚ) < 2 ^ (Int.log 2 |q| - 52) := zpow_pos (by norm_num) _
    have hlog : (2 : ℚ) ^ Int.log 2 |q| ≤ |q| := by
      have := Int.zpow_log_le_self (b := 2) (R := ℚ) (by norm_num) habs
      exact_mod_cast this
    have hsplit : (2 : ℚ) ^ (Int.log 2 |q| - 52)
        = (2 : ℚ) ^ Int.log 2 |q| / (2 : ℚ) ^ (52 : ℤ) := by
      rw [zpow_sub₀ (by norm_num)]
    have key : |(rne (q / 2 ^ (Int.log 2 |q| - 52)) : ℚ) * 2 ^ (Int.log 2 |q| - 52) - q|
        ≤ (1 / 2) * 2 ^ (Int.log 2 |q| - 52) := by
      have hrw : (rne (q / 2 ^ (Int.log 2 |q| - 52)) : ℚ) * 2 ^ (Int.log 2 |q| - 52) - q
          = ((rne (q / 2 ^ (Int.log 2 |q| - 52)) : ℚ) - q / 2 ^ (Int.log 2 |q| - 52))
            * 2 ^ (Int.log 2 |q| - 52) := by
        field_simp
      rw [hrw, abs_mul, abs_of_pos hzp]
      exact mul_le_mul_of_nonneg_right (rne_dist _) hzp.le
    refine key.trans ?_
    rw [hsplit]
    have h52 : (2 : ℚ) ^ (52 : ℤ) = 4503599627370496 := by norm_num
    rw [h52]
    nlinarith [hlog, habs]

/-- Coarse magnitude bound for rounded values. -/
lemma roundDouble_abs_le (q : ℚ) : |roundDouble q| ≤ 2 * |q| := by
  have h := roundDouble_dist q
  calc |roundDouble q| = |(roundDouble q - q) + q| := by ring_nf
    _ ≤ |roundDouble q - q| + |q| := abs_add _ _
    _ ≤ 2 * |q| := by linarith

/-- The binary exponent is determined by the bracketing powers of two. -/
lemma int_log2_eq (q : ℚ) (n : ℤ) (h0 : 0 < q) (h1 : (2 : ℚ) ^ n ≤ q)
    (h2 : q < (2 : ℚ) ^ (n + 1)) : Int.log 2 q = n := by
  have ha : (2 : ℚ) ^ Int.log 2 q ≤ q := by
    have := Int.zpow_log_le_self (b := 2) (R := ℚ) (by norm_num) h0
    exact_mod_cast this
  have hb : q < (2 : ℚ) ^ (Int.log 2 q + 1) := by
    have := Int.lt_zpow_succ_log_self (b := 2) (R := ℚ) (by norm_num) q
    exact_mod_cast this
  by_contra hne
  rcases lt_or_gt_of_ne hne with hlt | hgt
  · have : (2 : ℚ) ^ (Int.log 2 q + 1) ≤ (2 : ℚ) ^ n :=
      zpow_le_zpow_right₀ (by norm_num) (by omega)
    linarith
  · have : (2 : ℚ) ^ (n + 1) ≤ (2 : ℚ) ^ Int.log 2 q :=
      zpow_le_zpow_right₀ (by norm_num) (by omega)
    linarith

/-- Unfolding of `roundDouble` at a positive value with a known binary
exponent. -/
lemma roundDouble_eq (q : ℚ) (n : ℤ) (h0 : 0 < q) (h1 : (2 : ℚ) ^ n ≤ q)
    (h2 : q < (2 : ℚ) ^ (n + 1)) :
    roundDouble q = (rne (q / 2 ^ (n - 52)) : ℚ) * 2 ^ (n - 52) := by
  unfold roundDouble
  rw [if_neg (ne_of_gt h0), abs_of_pos h0, int_log2_eq q n h0 h1 h2]

/-! ## Claim C3 -/

/-- C3: the claim says `filetimeToEpoch t` equals exactly
`floor(t / 10000) - 11644473600000`, negative for every `t` below the epoch
boundary `116444736000000000`.  The source divides with float `/` (not `//`):
at `t = 116444735999999999` the quotient `11644473599999.9999` rounds up to
the double `11644473600000.0`, the subtraction gives `0.0`, and `int()`
returns `0` — while the exact formula gives `-1` (a negative value, as the
claim demands for this pre-epoch tick). -/
theorem filetimeToEpoch_float_slip :
    filetimeToEpoch 116444735999999999 = 0 ∧
    ((116444735999999999 / 10000 : ℕ) : ℤ) - 11644473600000 = -1 ∧
    (0 : ℤ) ≠ -1 := by
  refine ⟨?_, by norm_num, by norm_num⟩
  unfold filetimeToEpoch
  have hcast : ((116444735999999999 : ℕ) : ℚ) = 116444735999999999 := by norm_num
  rw [hcast]
  have h1 : roundDouble ((116444735999999999 : ℚ) / 10000) = 11644473600000 := by
    rw [roundDouble_eq _ 43 (by norm_num) (by norm_num) (by norm_num)]
    have he : (43 : ℤ) - 52 = -9 := by norm_num
    rw [he]
    have hzp : (2 : ℚ) ^ (-9 : ℤ) = 1 / 512 := by norm_num
    rw [hzp]
    have harg : (116444735999999999 : ℚ) / 10000 / (1 / 512)
        = 59619704831999999488 / 10000 := by norm_num
    rw [harg]
    have hrne : rne (59619704831999999488 / 10000 : ℚ) = 5961970483200000 := by
      unfold rne
      have hfl : ⌊(59619704831999999488 / 10000 : ℚ)⌋ = 5961970483199999 := by
        norm_num
      rw [hfl, if_neg (by norm_num), if_pos (by norm_num)]
      norm_num
    rw [hrne]
    norm_num
  rw [h1, sub_self]
  simp [roundDouble, truncInt]

/-! ## `datetime.utcfromtimestamp` and `filetimeToHumanReadable`
(usn.py lines 171-178)

`str(datetime.utcfromtimestamp(x))` renders a UTC civil date-time.  CPython
raises `ValueError` when the resulting year falls outside 1..9999, and a
different exception for magnitudes the platform conversion cannot handle at
all (`OverflowError` beyond the 64-bit `time_t` range, `OSError` where glibc's
`gmtime` gives up, observed between 6.7e16 and 6.8e16 seconds).  The source's
`except ValueError` catches only the first kind.  `gmtimeBound` is a sound
lower bound for the non-ValueError region: every second count reachable from
a 64-bit FILETIME is at most about 1.9e12, eleven thousand times smaller. -/

/-- Seconds magnitude below which out-of-range timestamps raise `ValueError`
(not `OSError`) in `datetime.utcfromtimestamp`. -/
def gmtimeBound : ℕ := 67000000000000000

/-- A rendered UTC civil date-time (the fields of `str(datetime)`). -/
structure CivilDateTime where
  year : ℤ
  month : ℤ
  day : ℤ
  hour : ℤ
  minute : ℤ
  second : ℤ
  microsecond : ℤ
deriving DecidableEq

/-- Proleptic Gregorian date from days since 1970-01-01 (the civil-from-days
algorithm used by C runtime date conversion). -/
def civilFromDays (z0 : ℤ) : ℤ × ℤ × ℤ :=
  let z := z0 + 719468
  let era := z.fdiv 146097
  let doe := z - era * 146097
  let yoe := (doe - doe.fdiv 1460 + doe.fdiv 36524 - doe.fdiv 146096).fdiv 365
  let y := yoe + era * 400
  let doy := doe - (365 * yoe + yoe.fdiv 4 - yoe.fdiv 100)
  let mp := (5 * doy + 2).fdiv 153
  let d := doy - (153 * mp + 2).fdiv 5 + 1
  let m := mp + (if mp < 10 then 3 else -9)
  (y + (if m ≤ 2 then 1 else 0), m, d)

/-- Split a timestamp into whole seconds and microseconds the way CPython
does: floor seconds, microseconds rounded half to even, carrying a rounded-up
full second. -/
def pySecUs (s : ℚ) : ℤ × ℤ :=
  if rne ((s - ⌊s⌋) * 1000000) = 1000000 then (⌊s⌋ + 1, 0)
  else (⌊s⌋, rne ((s - ⌊s⌋) * 1000000))

/-- The civil date-time built for an in-range timestamp. -/
def pyCivil (s : ℚ) : CivilDateTime :=
  let sec := (pySecUs s).1
  let days := sec.fdiv 86400
  let sod := sec - days * 86400
  let ymd := civilFromDays days
  ⟨ymd.1, ymd.2.1, ymd.2.2, sod.fdiv 3600, sod.fdiv 60 % 60, sod % 60, (pySecUs s).2⟩

/-- `datetime.utcfromtimestamp` on a float value `s`: `OverflowError` beyond
the `time_t` range, `OSError` where `gmtime` fails, `ValueError` for years
outside 1..9999, otherwise the civil date-time. -/
def pyUtcFromTimestamp (s : ℚ) : Except PyExc CivilDateTime :=
  if (2 : ℚ) ^ 63 ≤ |s| then Except.error PyExc.overflowError
  else if gmtimeBound < (pySecUs s).1.natAbs then Except.error PyExc.osError
  else if (civilFromDays ((pySecUs s).1.fdiv 86400)).1 < 1 ∨
      9999 < (civilFromDays ((pySecUs s).1.fdiv 86400)).1 then
    Except.error PyExc.valueError
  else Except.ok (pyCivil s)

/-- The double nearest to `1e-7` (the literal in usn.py line 176). -/
def d7 : ℚ := roundDouble (1 / 10000000)

/-- `filetimeToHumanReadable` (usn.py lines 171-178):
`datetime.utcfromtimestamp(float(filetime) * 1e-7 - 11644473600)` inside a
`try` that catches only `ValueError` (turned into Python's `None`, here
`Option.none`); any other exception escapes. -/
def filetimeToHumanReadable (t : ℕ) : Except PyExc (Option CivilDateTime) :=
  match pyUtcFromTimestamp
      (roundDouble (roundDouble (roundDouble (t : ℚ) * d7) - 11644473600)) with
  | Except.ok ct => Except.ok (some ct)
  | Except.error PyExc.valueError => Except.ok none
  | Except.error e => Except.error e

/-- For timestamps of small magnitude, `utcfromtimestamp` either succeeds or
raises `ValueError` — never `OverflowError` or `OSError`. -/
lemma pyUtc_no_hard_fail (s : ℚ) (hs : |s| ≤ 2 ^ 47) :
    (∃ ct, pyUtcFromTimestamp s = Except.ok ct) ∨
    pyUtcFromTimestamp s = Except.error PyExc.valueError := by
  have hov : ¬ ((2 : ℚ) ^ 63 ≤ |s|) := by
    have : (2 : ℚ) ^ 47 < 2 ^ 63 := by norm_num
    intro hc; linarith
  have hfl_le : ⌊s⌋ ≤ 2 ^ 47 := by
    have h1 : s ≤ (((2 : ℤ) ^ 47 : ℤ) : ℚ) := by
      push_cast
      linarith [le_abs_self s]
    calc ⌊s⌋ ≤ ⌊(((2 : ℤ) ^ 47 : ℤ) : ℚ)⌋ := Int.floor_le_floor h1
      _ = 2 ^ 47 := Int.floor_intCast _
  have hfl_ge : -(2 ^ 47) ≤ ⌊s⌋ := by
    have h1 : ((-(2 : ℤ) ^ 47 : ℤ) : ℚ) ≤ s := by
      push_cast
      linarith [neg_abs_le s]
    calc (-(2 ^ 47) : ℤ) = ⌊((-(2 : ℤ) ^ 47 : ℤ) : ℚ)⌋ := (Int.floor_intCast _).symm
      _ ≤ ⌊s⌋ := Int.floor_le_floor h1
  have hsec : (pySecUs s).1 = ⌊s⌋ ∨ (pySecUs s).1 = ⌊s⌋ + 1 := by
    unfold pySecUs
    split <;> simp
  have hna : ¬ (gmtimeBound < (pySecUs s).1.natAbs) := by
    have hb : (pySecUs s).1.natAbs ≤ 2 ^ 47 + 1 := by
      rcases hsec with h | h <;> rw [h] <;> omega
    simp only [gmtimeBound]
    omega
  unfold pyUtcFromTimestamp
  rw [if_neg hov, if_neg hna]
  split_ifs with hy
  · exact Or.inr rfl
  · exact Or.inl ⟨_, rfl⟩

/-! ## Claim C4 -/

/-- C4: for every 64-bit FILETIME `t`, `filetimeToHumanReadable t` returns
normally: out-of-range values raise `ValueError`, which the handler catches
and turns into `None` (absence of a human-readable value), and the epoch
conversion is a separate, unconditional computation.  The magnitudes that
would raise an uncaught `OSError`/`OverflowError` are unreachable from 64-bit
input. -/
theorem filetimeToHumanReadable_total (t : ℕ) (ht : t < 2 ^ 64) :
    ∃ r, filetimeToHumanReadable t = Except.ok r := by
  have hs1 : |roundDouble (t : ℚ)| ≤ 2 ^ 65 := by
    have h := roundDouble_abs_le (t : ℚ)
    have habs : |(t : ℚ)| = (t : ℚ) := abs_of_nonneg (by positivity)
    have hto : (t : ℚ) ≤ 2 ^ 64 := by
      have : ((t : ℕ) : ℚ) < ((2 ^ 64 : ℕ) : ℚ) := by exact_mod_cast ht
      push_cast at this
      linarith
    rw [habs] at h
    nlinarith
  have hd7 : |d7| ≤ 1 / 2 ^ 21 := by
    have h := roundDouble_abs_le (1 / 10000000 : ℚ)
    have habs : |(1 / 10000000 : ℚ)| = 1 / 10000000 := by
      rw [abs_of_nonneg]; norm_num
    rw [habs] at h
    unfold d7
    have : (2 : ℚ) * (1 / 10000000) ≤ 1 / 2 ^ 21 := by norm_num
    linarith
  have hs2 : |roundDouble (roundDouble (t : ℚ) * d7)| ≤ 2 ^ 45 := by
    have h := roundDouble_abs_le (roundDouble (t : ℚ) * d7)
    have hm : |roundDouble (t : ℚ) * d7| ≤ 2 ^ 65 * (1 / 2 ^ 21) := by
      rw [abs_mul]
      exact mul_le_mul hs1 hd7 (abs_nonneg _) (by positivity)
    have : (2 : ℚ) * (2 ^ 65 * (1 / 2 ^ 21)) ≤ 2 ^ 45 := by norm_num
    linarith
  have hs3 : |roundDouble (roundDouble (roundDouble (t : ℚ) * d7) - 11644473600)|
      ≤ 2 ^ 47 := by
    have h := roundDouble_abs_le (roundDouble (roundDouble (t : ℚ) * d7) - 11644473600)
    have hm : |roundDouble (roundDouble (t : ℚ) * d7) - 11644473600|
        ≤ 2 ^ 45 + 11644473600 := by
      have htri := abs_add (roundDouble (roundDouble (t : ℚ) * d7))
        (-(11644473600 : ℚ))
      rw [← sub_eq_add_neg, abs_neg] at htri
      have : |(11644473600 : ℚ)| = 11644473600 := by rw [abs_of_nonneg]; norm_num
      rw [this] at htri
      linarith
    have : (2 : ℚ) * (2 ^ 45 + 11644473600) ≤ 2 ^ 47 := by norm_num
    linarith
  rcases pyUtc_no_hard_fail _ hs3 with ⟨ct, hok⟩ | hval
  · exact ⟨some ct, by unfold filetimeToHumanReadable; rw [hok]⟩
  · exact ⟨none, by unfold filetimeToHumanReadable; rw [hval]⟩

/-- Witness for C4 at `t = 0` (FILETIME origin 1601-01-01, pre-epoch). -/
theorem filetimeToHumanReadable_total_witness :
    (0 < 2 ^ 64) ∧ ∃ r, filetimeToHumanReadable 0 = Except.ok r :=
  ⟨by norm_num, filetimeToHumanReadable_total 0 (by norm_num)⟩
